import Mathlib

/-!
Verification of the blog application in `src/app.js`.

The embedding models the data (posts, the persisted store) and the route
handlers (`/`, `/posts`, `/post`, `/search`, `POST /add-post`) as pure Lean
functions.  JavaScript primitives used by the code (`parseInt`,
`Array.prototype.slice`, `String.prototype.toLowerCase`,
`String.prototype.includes`, `String.prototype.substring`, truthiness of
strings) are modelled explicitly.  The external libraries `marked` and
`sanitize-html` are not part of the repository; where a claim depends on
them they are modelled from the spec, as marked in the doc comments.
-/

/-- A blog post record, as produced by the `POST /add-post` handler in
`src/app.js` (fields `id`, `title`, `content`, `excerpt`, `author`,
`createdAt`, `readingTime`).  The ISO-8601 `createdAt` string is modelled
as a natural-number timestamp (ISO-8601 order is chronological order). -/
structure Post where
  id : Int
  title : String
  content : String
  excerpt : String
  author : String
  createdAt : Nat
  readingTime : Nat
deriving Repr, DecidableEq

/-- The body of a `POST /add-post` request: each field may be absent. -/
structure CreateInput where
  title : Option String
  content : Option String
  author : Option String
  excerpt : Option String
deriving Repr, DecidableEq

/-- JavaScript string truthiness test on a possibly-missing string:
`undefined` and the empty string are falsy, all other strings truthy. -/
def falsyStr : Option String → Bool
  | none => true
  | some s => s = ""

/-- Model of JavaScript `String.prototype.toLowerCase` (per-character
lowercasing). -/
def toLowerJS (s : String) : String := String.mk (s.data.map Char.toLower)

/-- Model of JavaScript `String.prototype.substring(0, n)` (a prefix of at
most `n` characters). -/
def jsSubstring (s : String) (n : Nat) : String := String.mk (s.data.take n)

/-- Model of JavaScript `parseInt` on a string: skip leading whitespace,
read an optional sign and then a maximal run of decimal digits; `none`
models the `NaN` result when no digit is found. -/
def parseIntJS (s : String) : Option Int :=
  let cs := s.data.dropWhile (fun c => c = ' ' || c = '\t' || c = '\n' || c = '\r')
  let signAndRest : Int × List Char :=
    match cs with
    | '-' :: rest => (-1, rest)
    | '+' :: rest => (1, rest)
    | _ => (1, cs)
  let digits := signAndRest.2.takeWhile Char.isDigit
  if digits.isEmpty then none
  else some (signAndRest.1 *
    (digits.foldl (fun acc c => 10 * acc + (c.toNat - '0'.toNat)) (0 : Nat) : Int))

/-- Model of JavaScript `Array.prototype.slice(start, stop)`: negative
indices count from the end of the array, and both indices are clamped to
the array bounds. -/
def jsSlice (l : List α) (start stop : Int) : List α :=
  let len : Int := l.length
  let s : Int := if start < 0 then max (len + start) 0 else min start len
  let e : Int := if stop < 0 then max (len + stop) 0 else min stop len
  (l.take e.toNat).drop s.toNat

/-- Post `b` comes no later than post `a` in the date-descending display order used
throughout `src/app.js` (`(a, b) => new Date(b.createdAt) - new Date(a.createdAt)`). -/
def dateGE (a b : Post) : Prop := b.createdAt ≤ a.createdAt

instance : DecidableRel dateGE := fun a b => Nat.decLe _ _

instance : IsTotal Post dateGE := ⟨fun a b => (Nat.le_total a.createdAt b.createdAt).symm⟩

instance : IsTrans Post dateGE := ⟨fun _ _ _ hab hbc => Nat.le_trans hbc hab⟩

/-- The sort `[...posts].sort((a, b) => new Date(b.createdAt) - new Date(a.createdAt))`
used by every listing route: a stable sort by creation timestamp,
descending (JavaScript `Array.prototype.sort` is stable, and so is
insertion sort). -/
def sortByDateDesc (posts : List Post) : List Post := List.insertionSort dateGE posts

/-- The `page` value computed by the `/posts` handler:
`parseInt(req.query.page) || 1` — `NaN` (no parse) and `0` are falsy and
default to `1`; every other integer, including negative ones, is kept. -/
def pageOf (q : Option String) : Int :=
  match q.bind parseIntJS with
  | none => 1
  | some n => if n = 0 then 1 else n

/-- The data rendered by the `/posts` view. -/
structure PostsPage where
  posts : List Post
  currentPage : Int
  totalPages : Nat
deriving Repr, DecidableEq

/-- The page count `Math.ceil(totalPosts / 6)` for a natural count. -/
def totalPagesOf (n : Nat) : Nat := (n + 5) / 6

/-- Core of the `/posts` handler (`src/app.js` lines 119–131) for an
already-resolved page number: sort date-descending, slice
`[(page-1)*6, (page-1)*6 + 6)` with JavaScript slice semantics. -/
def paginate (posts : List Post) (page : Int) : PostsPage :=
  let sorted := sortByDateDesc posts
  let offset : Int := (page - 1) * 6
  { posts := jsSlice sorted offset (offset + 6)
    currentPage := page
    totalPages := totalPagesOf posts.length }

/-- The `/posts` handler: resolve the `page` query parameter, then paginate. -/
def postsHandler (pageParam : Option String) (posts : List Post) : PostsPage :=
  paginate posts (pageOf pageParam)

/-! ### HTML model

Modelled from the spec: the repository delegates Markdown rendering to the
`marked` library and HTML sanitization to the `sanitize-html` library,
neither of which is part of the repository.  Following §4.2 of the spec,
an HTML document is modelled as a flat sequence of text runs and tags
(name plus attribute list), and sanitization strips every tag whose name
is not on a fixed allow-list and every attribute not on the allow-list of
its tag. -/

/-- One HTML token: a run of text, or an opening/closing tag with its
attribute list. -/
inductive HtmlNode where
  | text (s : String)
  | tag (closing : Bool) (name : String) (attrs : List (String × String))
deriving Repr, DecidableEq

/-- Split a character stream at the first `>`: the tag body before it and
the remainder after it. -/
def splitTag : List Char → List Char × List Char
  | [] => ([], [])
  | c :: rest =>
    if c = '>' then ([], rest)
    else
      let p := splitTag rest
      (c :: p.1, p.2)

theorem splitTag_snd_length : ∀ cs : List Char, (splitTag cs).2.length ≤ cs.length := by
  intro cs
  induction cs with
  | nil => simp [splitTag]
  | cons c rest ih =>
    by_cases h : c = '>'
    · simp [splitTag, h]
    · simp only [splitTag, if_neg h]
      simpa using Nat.le_succ_of_le ih

/-- Split a character list into maximal space-free groups (used for the
attribute part of a tag). -/
def splitOnSpaces (cs : List Char) : List (List Char) :=
  (cs.foldr (fun c acc =>
    if c = ' ' then [] :: acc
    else
      match acc with
      | [] => [[c]]
      | g :: gs => (c :: g) :: gs) []).filter (fun g => ¬ g.isEmpty)

/-- Strip one leading and one trailing double quote from an attribute
value. -/
def stripQuotes (cs : List Char) : List Char :=
  let cs := match cs with
    | '"' :: rest => rest
    | _ => cs
  if cs.getLast? = some '"' then cs.dropLast else cs

/-- Parse one `name` or `name=value` attribute word; names are
lowercased. -/
def parseAttr (w : List Char) : String × String :=
  let name := (w.takeWhile (fun c => c ≠ '=')).map Char.toLower
  let rest := w.dropWhile (fun c => c ≠ '=')
  let value : List Char :=
    match rest with
    | '=' :: v => stripQuotes v
    | _ => []
  (String.mk name, String.mk value)

/-- Parse the body of a tag (the characters between `<` and `>`):
an optional `/`, the lowercased tag name, then the attribute words. -/
def parseTag (inside : List Char) : HtmlNode :=
  let closingAndBody : Bool × List Char :=
    match inside with
    | '/' :: rest => (true, rest)
    | _ => (false, inside)
  let body := closingAndBody.2
  let name := (body.takeWhile (fun c => c ≠ ' ')).map Char.toLower
  let attrWords := splitOnSpaces (body.dropWhile (fun c => c ≠ ' '))
  .tag closingAndBody.1 (String.mk name) (attrWords.map parseAttr)

/-- Tokenize an HTML character stream into text runs and tags; the fuel
parameter (instantiated with the stream length) makes the recursion
structural, `splitTag_snd_length` guarantees it never runs out. -/
def tokenizeFuel : Nat → List Char → List HtmlNode
  | 0, _ => []
  | _ + 1, [] => []
  | fuel + 1, c :: rest =>
    if c = '<' then
      let p := splitTag rest
      parseTag p.1 :: tokenizeFuel fuel p.2
    else
      match tokenizeFuel fuel rest with
      | .text s :: ns => .text (String.mk (c :: s.data)) :: ns
      | ns => .text (String.mk [c]) :: ns

/-- Tokenize an HTML string. -/
def tokenize (s : String) : List HtmlNode := tokenizeFuel s.data.length s.data

/-- Allow-list sanitization over tokenized HTML: drop every tag whose name
is not allowed, and on kept tags drop every attribute not allowed for that
tag name; text runs pass through. -/
def sanitizeNodes (allowedTags : List String) (allowedAttrs : String → List String)
    (ns : List HtmlNode) : List HtmlNode :=
  ns.filterMap fun n =>
    match n with
    | .text s => some (.text s)
    | .tag c nm attrs =>
      if nm ∈ allowedTags then
        some (.tag c nm (attrs.filter fun a => decide (a.1 ∈ allowedAttrs nm)))
      else none

/-- Render a token back to HTML text. -/
def renderNode : HtmlNode → String
  | .text s => s
  | .tag c nm attrs =>
    "<" ++ (if c then "/" else "") ++ nm ++
      String.join (attrs.map fun a =>
        " " ++ a.1 ++ (if a.2 = "" then "" else "=\"" ++ a.2 ++ "\"")) ++ ">"

/-- Render a token list back to HTML text. -/
def renderNodes (ns : List HtmlNode) : String := String.join (ns.map renderNode)

/-- Modelled from the spec: the base allow-list of tags of the
`sanitize-html` library ("a base safe set", §4.2); it contains the common
formatting tags and no script-executing tag. -/
def defaultAllowedTags : List String :=
  ["h3", "h4", "h5", "h6", "blockquote", "p", "a", "ul", "ol", "li",
   "b", "i", "strong", "em", "strike", "code", "hr", "br", "div",
   "table", "thead", "caption", "tbody", "tr", "th", "td", "pre", "span"]

/-- Modelled from the spec: the base per-tag attribute allow-list of the
`sanitize-html` library (anchor attributes only). -/
def defaultAllowedAttrs (t : String) : List String :=
  if t = "a" then ["href", "name", "target"] else []

/-- The tag allow-list of `processPostContent` (`src/app.js` lines 79–85):
the base safe set plus `img`, `h1`, `h2`, `h3`. -/
def contentAllowedTags : List String :=
  defaultAllowedTags ++ ["img", "h1", "h2", "h3"]

/-- The attribute allow-list of `processPostContent` (`src/app.js` lines
86–90): anchors keep `href`/`target`/`rel`, images keep
`src`/`alt`/`title`, nothing else keeps any attribute. -/
def contentAllowedAttrs (t : String) : List String :=
  if t = "a" then ["href", "target", "rel"]
  else if t = "img" then ["src", "alt", "title"]
  else []

/-- The function `processPostContent` (`src/app.js` lines 76-92) at the HTML level.
Modelled from the spec: the Markdown renderer `marked` is an external
library producing some HTML string; sanitization is applied to that
string, so the theorems below quantify over every possible intermediate
HTML string. -/
def processPostContent (html : String) : List HtmlNode :=
  sanitizeNodes contentAllowedTags contentAllowedAttrs (tokenize html)

/-- The bare `sanitizeHtml(s)` calls (default options) applied to title,
author and excerpt in the `POST /add-post` handler (`src/app.js` lines
225–228), modelled from the spec. -/
def sanitizeStr (s : String) : String :=
  renderNodes (sanitizeNodes defaultAllowedTags defaultAllowedAttrs (tokenize s))

/-! ### Search (`GET /search`, `src/app.js` lines 246–273) -/

/-- Test that `needle` is a leading segment of `hay` on character lists, written out so the model
is self-contained. -/
def isPrefixB : List Char → List Char → Bool
  | [], _ => true
  | _ :: _, [] => false
  | a :: as, b :: bs => a == b && isPrefixB as bs

/-- Model of JavaScript `String.prototype.includes`: `needle` occurs as a
contiguous substring of `hay`. -/
def containsSub (needle : List Char) : List Char → Bool
  | [] => isPrefixB needle []
  | c :: rest => isPrefixB needle (c :: rest) || containsSub needle rest

/-- The search predicate of the `/search` handler: the (already
lowercased) query occurs in the lowercased title, content or author. -/
def matchesQuery (query : String) (p : Post) : Bool :=
  containsSub query.data (toLowerJS p.title).data ||
  containsSub query.data (toLowerJS p.content).data ||
  containsSub query.data (toLowerJS p.author).data

/-- Outcome of the `/search` handler. -/
inductive SearchOutcome where
  | redirect
  | results (posts : List Post)
deriving Repr, DecidableEq

/-- The `/search` handler: an empty (or missing) query redirects to `/`;
otherwise the matching posts are returned date-descending. -/
def searchHandler (qParam : Option String) (posts : List Post) : SearchOutcome :=
  let query := toLowerJS (qParam.getD "")
  if query = "" then .redirect
  else .results (sortByDateDesc (posts.filter (matchesQuery query)))

/-! ### Single post (`GET /post`, `src/app.js` lines 149–189) -/

/-- The strict comparison `p.id === id` where `id` may be `NaN`
(modelled as `none`): `NaN` is equal to nothing. -/
def idMatches (idv : Option Int) (p : Post) : Bool :=
  match idv with
  | none => false
  | some v => p.id == v

/-- What the `/post` handler renders. -/
structure PostView where
  post : Post
  prevPost : Option Post
  nextPost : Option Post
deriving Repr, DecidableEq

/-- Outcome of the `/post` handler. -/
inductive PostOutcome where
  | notFound
  | view (v : PostView)
deriving Repr, DecidableEq

/-- Core of the `/post` handler for an already-parsed id: find the post
(404 when absent), then locate its neighbours in the date-descending
order (`src/app.js` lines 162–171). -/
def locate (posts : List Post) (idv : Option Int) : PostOutcome :=
  match posts.find? (idMatches idv) with
  | none => .notFound
  | some post =>
    .view
      { post := post
        prevPost :=
          if (sortByDateDesc posts).findIdx (idMatches idv) <
              (sortByDateDesc posts).length - 1 then
            (sortByDateDesc posts)[(sortByDateDesc posts).findIdx (idMatches idv) + 1]?
          else none
        nextPost :=
          if 0 < (sortByDateDesc posts).findIdx (idMatches idv) then
            (sortByDateDesc posts)[(sortByDateDesc posts).findIdx (idMatches idv) - 1]?
          else none }

/-- The `/post` handler: `parseInt(req.query.id)` then `locate`. -/
def postHandler (idParam : Option String) (posts : List Post) : PostOutcome :=
  locate posts (idParam.bind parseIntJS)

/-! ### Post creation (`POST /add-post`, `src/app.js` lines 211–244) -/

/-- The new identifier: `posts.length > 0 ? Math.max(...posts.map(p => p.id)) + 1 : 1`. -/
def newPostId (posts : List Post) : Int :=
  match posts.map Post.id with
  | [] => 1
  | x :: xs => xs.foldl max x + 1

/-- Number of pieces of `content.split(/\s+/)`: one more than the number
of maximal whitespace runs. -/
def wordSplitCount (s : String) : Nat :=
  1 + (s.data.foldl (fun (acc : Nat × Bool) c =>
    if c = ' ' || c = '\t' || c = '\n' || c = '\r' then
      (if acc.2 then acc else (acc.1 + 1, true))
    else (acc.1, false)) (0, false)).1

/-- Outcome of the `POST /add-post` handler. -/
inductive CreateOutcome where
  | validationError
  | redirect (id : Int)
deriving Repr, DecidableEq

/-- The `POST /add-post` handler on a loaded collection: validate, build
the new post (sanitized title/author/excerpt, excerpt defaulting to the
first 150 characters of content plus `...`), append it, and report the
redirect target.  The second component is the collection passed to
`writePosts` (unchanged on validation failure). -/
def addPost (input : CreateInput) (now : Nat) (posts : List Post) :
    CreateOutcome × List Post :=
  if falsyStr input.title || falsyStr input.content || falsyStr input.author then
    (.validationError, posts)
  else
    let title := input.title.getD ""
    let content := input.content.getD ""
    let author := input.author.getD ""
    let excerptRaw :=
      match input.excerpt with
      | some e => if e = "" then jsSubstring content 150 ++ "..." else e
      | none => jsSubstring content 150 ++ "..."
    let newPost : Post :=
      { id := newPostId posts
        title := sanitizeStr title
        content := content
        excerpt := sanitizeStr excerptRaw
        author := sanitizeStr author
        createdAt := now
        readingTime := (wordSplitCount content + 199) / 200 }
    (.redirect newPost.id, posts ++ [newPost])

/-! ### The persisted store (`readPosts` / `writePosts`, `src/app.js`
lines 50–74) -/

/-- The persisted JSON document: `none` models an absent file. -/
abbrev Store := Option (List Post)

/-- Model of `readPosts`: return the stored collection; when the document is
absent, create it holding the empty collection.  The second component is
the store state after the call. -/
def readPostsS : Store → List Post × Store
  | none => ([], some [])
  | some ps => (ps, some ps)

/-- Stateful `GET /` handler: read, then take the top 3 by date
(`sortedPosts.slice(0, 3)`). -/
def homeS (st : Store) : List Post × Store :=
  let r := readPostsS st
  (jsSlice (sortByDateDesc r.1) 0 3, r.2)

/-- Stateful `GET /posts` handler. -/
def postsS (pageParam : Option String) (st : Store) : PostsPage × Store :=
  let r := readPostsS st
  (postsHandler pageParam r.1, r.2)

/-- Stateful `GET /post` handler. -/
def postS (idParam : Option String) (st : Store) : PostOutcome × Store :=
  let r := readPostsS st
  (postHandler idParam r.1, r.2)

/-- Stateful `GET /search` handler. -/
def searchS (qParam : Option String) (st : Store) : SearchOutcome × Store :=
  let r := readPostsS st
  (searchHandler qParam r.1, r.2)

/-- Stateful `POST /add-post` handler: validation happens before the
store is read, so an invalid submission touches nothing; a valid one
reads (possibly initializing) and then writes the extended collection. -/
def addPostS (input : CreateInput) (now : Nat) (st : Store) : CreateOutcome × Store :=
  if falsyStr input.title || falsyStr input.content || falsyStr input.author then
    (.validationError, st)
  else
    let r := readPostsS st
    let res := addPost input now r.1
    (res.1, some res.2)

/-! ### Concrete data used by witnesses and counterexamples -/

/-- A concrete post (id 1, the older one). -/
def postA : Post :=
  { id := 1, title := "Alpha", content := "hello world", excerpt := "hello world...",
    author := "Ann", createdAt := 10, readingTime := 1 }

/-- A concrete post (id 2, the newer one). -/
def postB : Post :=
  { id := 2, title := "Beta", content := "more text", excerpt := "more text...",
    author := "Bob", createdAt := 20, readingTime := 1 }

/-- A two-post collection in append order (oldest first). -/
def demoPosts : List Post := [postA, postB]

/-- A valid creation input whose content holds a script tag and whose
excerpt is absent. -/
def scriptInput : CreateInput :=
  { title := some "T", content := some "<script>x</script>",
    author := some "A", excerpt := none }

/-- A creation input with an empty author (used for `C7`). -/
def noAuthorInput : CreateInput :=
  { title := some "T", content := some "body", author := some "", excerpt := none }

/-! ### Helper lemmas -/

theorem foldl_max_le (xs : List Int) : ∀ (x : Int), ∀ y ∈ x :: xs, y ≤ xs.foldl max x := by
  induction xs with
  | nil =>
    intro x y hy
    simp only [List.mem_singleton] at hy
    simp [hy]
  | cons a t ih =>
    intro x y hy
    simp only [List.foldl_cons]
    have htop : max x a ≤ t.foldl max (max x a) :=
      ih (max x a) (max x a) (List.mem_cons_self _ _)
    rcases List.mem_cons.mp hy with rfl | hy2
    · exact le_trans (le_max_left y a) htop
    · rcases List.mem_cons.mp hy2 with rfl | hy3
      · exact le_trans (le_max_right x y) htop
      · exact ih (max x a) y (List.mem_cons_of_mem _ hy3)

theorem foldl_max_mem (xs : List Int) : ∀ (x : Int), xs.foldl max x ∈ x :: xs := by
  induction xs with
  | nil => intro x; simp
  | cons a t ih =>
    intro x
    simp only [List.foldl_cons]
    refine List.mem_cons.mpr ?_
    rcases List.mem_cons.mp (ih (max x a)) with h | h
    · rcases max_choice x a with hm | hm
      · exact Or.inl (h.trans hm)
      · exact Or.inr (List.mem_cons.mpr (Or.inl (h.trans hm)))
    · exact Or.inr (List.mem_cons.mpr (Or.inr h))

/-! Concrete sanity checks of the embedding. -/

example : sortByDateDesc demoPosts = [postB, postA] := by decide
example : postsHandler (some "-1") demoPosts =
    { posts := [], currentPage := -1, totalPages := 1 } := by decide
example : postsHandler (some "1") demoPosts =
    { posts := [postB, postA], currentPage := 1, totalPages := 1 } := by decide
example : locate demoPosts (some 1) =
    .view { post := postA, prevPost := none, nextPost := some postB } := by decide
example : searchHandler (some "ALP") demoPosts = .results [postA] := by decide
example : searchHandler (some "o") demoPosts = .results [postB, postA] := by decide
example : (addPost scriptInput 5 []).2.map Post.excerpt = ["x..."] := by decide
example : parseIntJS "-1" = some (-1) := by decide
example : parseIntJS "abc" = none := by decide
example : parseIntJS "  42x" = some 42 := by decide
example : pageOf (some "0") = 1 := by rfl
example : jsSlice [1,2,3,4,5,6,7] (-12) (-6) = [1] := by decide
example : sanitizeStr "<script>x</script>hi" = "xhi" := by decide
example : renderNodes (processPostContent "<a href=\"u\" onclick=\"e\">t</a>") = "<a href=\"u\">t</a>" := by decide

/-! ### Claim theorems -/

/-- C1: For every valid creation input (non-empty title, content and
author) applied to a collection, the collection passed to `writePosts` has
size exactly one greater than before, the new post is appended, its
identifier is strictly greater than every identifier present before, it is
one greater than some existing identifier when the collection was
non-empty, and it is `1` when the collection was empty. -/
theorem create_spec (input : CreateInput) (now : Nat) (posts : List Post)
    (ht : falsyStr input.title = false) (hc : falsyStr input.content = false)
    (ha : falsyStr input.author = false) :
    ∃ np, (addPost input now posts).2 = posts ++ [np] ∧
      (addPost input now posts).2.length = posts.length + 1 ∧
      (∀ q ∈ posts, q.id < np.id) ∧
      (posts ≠ [] → ∃ q ∈ posts, np.id = q.id + 1) ∧
      (posts = [] → np.id = 1) := by
  have hcond : (falsyStr input.title || falsyStr input.content || falsyStr input.author) = false := by
    rw [ht, hc, ha]; rfl
  simp only [addPost, hcond, Bool.false_eq_true, if_false]
  refine ⟨_, rfl, by simp, ?_, ?_, ?_⟩
  · intro q hq
    show q.id < newPostId posts
    cases hm : posts.map Post.id with
    | nil =>
      rw [List.map_eq_nil_iff] at hm
      subst hm
      simp at hq
    | cons x xs =>
      have hnew : newPostId posts = xs.foldl max x + 1 := by
        unfold newPostId
        rw [hm]
      have hmem : q.id ∈ x :: xs := by
        rw [← hm]
        exact List.mem_map_of_mem Post.id hq
      have := foldl_max_le xs x q.id hmem
      omega
  · intro hne
    show ∃ q ∈ posts, newPostId posts = q.id + 1
    cases hm : posts.map Post.id with
    | nil =>
      rw [List.map_eq_nil_iff] at hm
      exact absurd hm hne
    | cons x xs =>
      have hnew : newPostId posts = xs.foldl max x + 1 := by
        unfold newPostId
        rw [hm]
      have hmem : xs.foldl max x ∈ posts.map Post.id := by
        rw [hm]
        exact foldl_max_mem xs x
      obtain ⟨q, hq, he⟩ := List.mem_map.mp hmem
      exact ⟨q, hq, by omega⟩
  · intro he
    subst he
    rfl

/-- C1 witness: a concrete valid creation on the two-post demo
collection appends a post with identifier `3 = max{1,2} + 1`. -/
theorem create_spec_witness :
    ∃ np, (addPost scriptInput 5 demoPosts).2 = demoPosts ++ [np] ∧
      (addPost scriptInput 5 demoPosts).2.length = demoPosts.length + 1 ∧
      (∀ q ∈ demoPosts, q.id < np.id) ∧
      (demoPosts ≠ [] → ∃ q ∈ demoPosts, np.id = q.id + 1) ∧
      (demoPosts = [] → np.id = 1) :=
  create_spec scriptInput 5 demoPosts (by decide) (by decide) (by decide)

/-- C7: a creation input with a falsy (absent or empty) title, content or
author is rejected with a validation error before the store is touched:
the collection returned by the handler and the persisted store are both
exactly the previous ones. -/
theorem create_invalid (input : CreateInput) (now : Nat) (posts : List Post) (st : Store)
    (h : falsyStr input.title = true ∨ falsyStr input.content = true ∨
      falsyStr input.author = true) :
    addPost input now posts = (.validationError, posts) ∧
    addPostS input now st = (.validationError, st) := by
  have hcond : (falsyStr input.title || falsyStr input.content || falsyStr input.author) = true := by
    rcases h with h | h | h <;> simp [h]
  constructor <;> simp [addPost, addPostS, hcond]

/-- C7 witness: creating a post with an empty author on the demo
collection yields a validation error and leaves the collection and the
store unchanged. -/
theorem create_invalid_witness :
    addPost noAuthorInput 7 demoPosts = (.validationError, demoPosts) ∧
    addPostS noAuthorInput 7 (some demoPosts) = (.validationError, some demoPosts) :=
  create_invalid noAuthorInput 7 demoPosts (some demoPosts) (by decide)

/-- C9: a `/post` request whose `id` parameter is missing or not
parseable as an integer (so that `parseInt` yields `NaN`, modelled as
`none`) results in the 404 not-found outcome, because the strict equality
`p.id === NaN` holds for no post. -/
theorem post_invalid_id (idParam : Option String) (posts : List Post)
    (h : idParam.bind parseIntJS = none) :
    postHandler idParam posts = .notFound := by
  unfold postHandler
  rw [h]
  unfold locate
  have hfind : posts.find? (idMatches none) = none := by
    rw [List.find?_eq_none]
    intro a _
    simp [idMatches]
  rw [hfind]

/-- C9 witness: `/post?id=abc` on the demo collection is a 404. -/
theorem post_invalid_id_witness :
    postHandler (some "abc") demoPosts = .notFound :=
  post_invalid_id (some "abc") demoPosts (by decide)

/-- C10: the read-only handlers (home, paginated listing, single post,
search) leave the store exactly as `readPosts` leaves it; `readPosts`
does not change a present store document, and initializes an absent one
to the empty collection.  Only `POST /add-post` produces any other store
state. -/
theorem readonly_frame (st : Store) (pp idp qp : Option String) :
    (homeS st).2 = (readPostsS st).2 ∧
    (postsS pp st).2 = (readPostsS st).2 ∧
    (postS idp st).2 = (readPostsS st).2 ∧
    (searchS qp st).2 = (readPostsS st).2 ∧
    (∀ c, st = some c → (readPostsS st).2 = st) ∧
    (st = none → (readPostsS st).2 = some []) := by
  refine ⟨rfl, rfl, rfl, rfl, ?_, ?_⟩
  · intro c hc
    subst hc
    rfl
  · intro hc
    subst hc
    rfl

/-- C10 witness: on a present store holding the demo collection,
`readPosts` (and hence every read-only handler) leaves the store
unchanged. -/
theorem readonly_frame_witness :
    (readPostsS (some demoPosts)).2 = some demoPosts :=
  (readonly_frame (some demoPosts) none none none).2.2.2.2.1 demoPosts rfl

/-- C3 counterexample: the page parameter `-1` is numeric and below 1,
but it is not treated as page 1 — `parseInt("-1") = -1` is truthy, so the
rendered `currentPage` is `-1`, not the `currentPage` of a page-1
request. -/
theorem page_default_counterexample :
    (postsHandler (some "-1") demoPosts).currentPage ≠
      (postsHandler (some "1") demoPosts).currentPage := by
  decide

/-- C3 amended: a page parameter that is non-numeric (`parseInt` gives
`NaN`) or that parses to `0` is treated as page 1 — the whole rendered
result (item slice, `currentPage`, `totalPages`) equals that of a page-1
request; negative page values are not defaulted. -/
theorem page_default_amended (pageParam : Option String) (posts : List Post)
    (h : pageParam.bind parseIntJS = none ∨ pageParam.bind parseIntJS = some 0) :
    postsHandler pageParam posts = postsHandler (some "1") posts := by
  have h1 : pageOf (some "1") = 1 := rfl
  have h2 : pageOf pageParam = 1 := by
    unfold pageOf
    rcases h with h | h <;> rw [h] <;> rfl
  unfold postsHandler
  rw [h1, h2]

/-- C3 witness: the non-numeric page parameter `abc` renders exactly the
page-1 result on the demo collection. -/
theorem page_default_amended_witness :
    postsHandler (some "abc") demoPosts = postsHandler (some "1") demoPosts :=
  page_default_amended (some "abc") demoPosts (Or.inl (by decide))

/-- C8 counterexample: for a valid creation input whose content contains
markup and whose excerpt is absent, the stored excerpt is NOT the first
150 characters of the content followed by an ellipsis — the handler
passes that default through `sanitizeHtml`, which strips the script
markup. -/
theorem excerpt_counterexample :
    (addPost scriptInput 5 []).2.map Post.excerpt ≠
      [jsSubstring "<script>x</script>" 150 ++ "..."] := by
  decide

/-- C8 amended: for every valid creation input, the stored excerpt is the
sanitized form of (first 150 characters of the content followed by an
ellipsis) when the excerpt field is falsy (absent or empty), and the
sanitized supplied excerpt otherwise. -/
theorem excerpt_amended (input : CreateInput) (now : Nat) (posts : List Post)
    (ht : falsyStr input.title = false) (hc : falsyStr input.content = false)
    (ha : falsyStr input.author = false) :
    ∃ np, (addPost input now posts).2 = posts ++ [np] ∧
      (falsyStr input.excerpt = true →
        np.excerpt = sanitizeStr (jsSubstring (input.content.getD "") 150 ++ "...")) ∧
      (∀ e, input.excerpt = some e → e ≠ "" → np.excerpt = sanitizeStr e) := by
  have hcond : (falsyStr input.title || falsyStr input.content || falsyStr input.author) = false := by
    rw [ht, hc, ha]; rfl
  simp only [addPost, hcond, Bool.false_eq_true, if_false]
  refine ⟨_, rfl, ?_, ?_⟩
  · intro hfe
    cases he : input.excerpt with
    | none => rfl
    | some e =>
      rw [he] at hfe
      have : e = "" := by
        simpa [falsyStr] using hfe
      simp [this]
  · intro e he hne
    rw [he]
    simp [hne]

/-- C8 witness: on the script-content input with no excerpt supplied, the
stored excerpt is the sanitized default (`"x..."`, the script tags
stripped). -/
theorem excerpt_amended_witness :
    ∃ np, (addPost scriptInput 5 []).2 = [] ++ [np] ∧
      (falsyStr scriptInput.excerpt = true →
        np.excerpt = sanitizeStr (jsSubstring (scriptInput.content.getD "") 150 ++ "...")) ∧
      (∀ e, scriptInput.excerpt = some e → e ≠ "" → np.excerpt = sanitizeStr e) :=
  excerpt_amended scriptInput 5 [] (by decide) (by decide) (by decide)

/-! ### C2: sanitizer safety -/

/-- An output token is safe when it is a text run, or a tag that is not a
script tag and carries no event-handler attribute (an attribute whose
name starts with `on`). -/
def nodeSafe : HtmlNode → Bool
  | .text _ => true
  | .tag _ nm attrs =>
    !(nm == "script") && attrs.all (fun a => !(a.1.data.take 2 == ['o', 'n']))

/-- Every token of the output is safe. -/
def outputSafe (ns : List HtmlNode) : Bool := ns.all nodeSafe

theorem contentAttrs_no_event (nm s : String)
    (hmem : s ∈ contentAllowedAttrs nm) :
    (s.data.take 2 == ['o', 'n']) = false := by
  unfold contentAllowedAttrs at hmem
  by_cases h1 : nm = "a"
  · rw [if_pos h1] at hmem
    rcases List.mem_cons.mp hmem with rfl | hmem
    · rfl
    rcases List.mem_cons.mp hmem with rfl | hmem
    · rfl
    rcases List.mem_cons.mp hmem with rfl | hmem
    · rfl
    · simp at hmem
  · rw [if_neg h1] at hmem
    by_cases h2 : nm = "img"
    · rw [if_pos h2] at hmem
      rcases List.mem_cons.mp hmem with rfl | hmem
      · rfl
      rcases List.mem_cons.mp hmem with rfl | hmem
      · rfl
      rcases List.mem_cons.mp hmem with rfl | hmem
      · rfl
      · simp at hmem
    · rw [if_neg h2] at hmem
      simp at hmem

theorem sanitizeNodes_text (tags : List String) (attrs : String → List String)
    (s : String) (ns : List HtmlNode) :
    sanitizeNodes tags attrs (.text s :: ns) = .text s :: sanitizeNodes tags attrs ns := rfl

theorem sanitizeNodes_tag (tags : List String) (attrs : String → List String)
    (c : Bool) (nm : String) (as : List (String × String)) (ns : List HtmlNode) :
    sanitizeNodes tags attrs (.tag c nm as :: ns) =
      if nm ∈ tags then
        .tag c nm (as.filter fun a => decide (a.1 ∈ attrs nm)) :: sanitizeNodes tags attrs ns
      else sanitizeNodes tags attrs ns := by
  by_cases h : nm ∈ tags <;>
    simp [sanitizeNodes, List.filterMap_cons, h]

theorem outputSafe_cons (n : HtmlNode) (ns : List HtmlNode) :
    outputSafe (n :: ns) = (nodeSafe n && outputSafe ns) := rfl

theorem sanitize_content_safe (ns : List HtmlNode) :
    outputSafe (sanitizeNodes contentAllowedTags contentAllowedAttrs ns) = true := by
  induction ns with
  | nil => rfl
  | cons n rest ih =>
    cases n with
    | text s =>
      rw [sanitizeNodes_text, outputSafe_cons, ih]
      rfl
    | tag c nm attrs =>
      rw [sanitizeNodes_tag]
      by_cases hnm : nm ∈ contentAllowedTags
      · rw [if_pos hnm, outputSafe_cons, ih, Bool.and_true]
        have hns : nm ≠ "script" := by
          intro hs
          subst hs
          revert hnm
          decide
        show (!(nm == "script") &&
          (attrs.filter fun a => decide (a.1 ∈ contentAllowedAttrs nm)).all
            (fun a => !(a.1.data.take 2 == ['o', 'n']))) = true
        have h1 : (!(nm == "script")) = true := by simp [hns]
        have h2 : ((attrs.filter fun a => decide (a.1 ∈ contentAllowedAttrs nm)).all
            (fun a => !(a.1.data.take 2 == ['o', 'n']))) = true := by
          rw [List.all_eq_true]
          intro a ha
          have hka : a.1 ∈ contentAllowedAttrs nm :=
            of_decide_eq_true (List.mem_filter.mp ha).2
          simpa using contentAttrs_no_event nm a.1 hka
        rw [h1, h2]
        rfl
      · rw [if_neg hnm]
        exact ih

/-- C2: for every input, the output of the Content Processor (Markdown
conversion by the external `marked` library producing some intermediate
HTML string, followed by allow-list sanitization) contains no script tag
(opening or closing) and no attribute whose name starts with `on` —
hence no event-handler attribute. -/
theorem content_processor_safe (html : String) :
    outputSafe (processPostContent html) = true :=
  sanitize_content_safe (tokenize html)

/-! ### C4: search -/

theorem isPrefixB_iff (n : List Char) : ∀ h : List Char,
    isPrefixB n h = true ↔ ∃ t, h = n ++ t := by
  induction n with
  | nil =>
    intro h
    simp [isPrefixB]
  | cons a as ih =>
    intro h
    cases h with
    | nil =>
      simp [isPrefixB]
    | cons b bs =>
      simp only [isPrefixB, Bool.and_eq_true, beq_iff_eq, ih, List.cons_append]
      constructor
      · rintro ⟨rfl, t, rfl⟩
        exact ⟨t, rfl⟩
      · rintro ⟨t, he⟩
        injection he with h1 h2
        exact ⟨h1.symm, t, h2⟩

theorem containsSub_iff (n : List Char) : ∀ h : List Char,
    containsSub n h = true ↔ ∃ s t, h = s ++ n ++ t := by
  intro h
  induction h with
  | nil =>
    simp only [containsSub, isPrefixB_iff n]
    constructor
    · rintro ⟨t, he⟩
      exact ⟨[], t, by simpa using he⟩
    · rintro ⟨s, t, he⟩
      have hs : s = [] ∧ n ++ t = [] := by
        rw [List.append_assoc] at he
        exact List.append_eq_nil.mp he.symm
      exact ⟨t, by rw [← hs.2]⟩
  | cons c rest ih =>
    simp only [containsSub, Bool.or_eq_true, isPrefixB_iff n, ih]
    constructor
    · rintro (⟨t, he⟩ | ⟨s, t, he⟩)
      · exact ⟨[], t, by simpa using he⟩
      · exact ⟨c :: s, t, by simp [he]⟩
    · rintro ⟨s, t, he⟩
      cases s with
      | nil =>
        exact Or.inl ⟨t, by simpa using he⟩
      | cons d s2 =>
        rw [List.cons_append, List.cons_append] at he
        injection he with h1 h2
        exact Or.inr ⟨s2, t, by simpa using h2⟩

theorem toLowerJS_eq_empty_iff (s : String) : toLowerJS s = "" ↔ s = "" := by
  cases s with
  | mk data =>
    cases data with
    | nil => constructor <;> intro <;> rfl
    | cons c cs =>
      constructor <;> intro h <;> exact absurd (String.ext_iff.mp h) (by simp [toLowerJS])

/-- The claim-side notion of a case-insensitive substring occurrence:
the lowercased query occurs contiguously in the lowercased field. -/
def OccursIn (q field : String) : Prop :=
  ∃ s t, (toLowerJS field).data = s ++ (toLowerJS q).data ++ t

/-- C4: a missing or empty search query yields a redirect; a non-empty
query `q` yields exactly the posts in which `q` occurs case-insensitively
as a substring of the title, the content, or the author (a post matches
if any one field matches), ordered by creation timestamp descending. -/
theorem search_correct (posts : List Post) :
    searchHandler none posts = .redirect ∧
    searchHandler (some "") posts = .redirect ∧
    ∀ q, q ≠ "" →
      ∃ r, searchHandler (some q) posts = .results r ∧
        (∀ p, p ∈ r ↔ p ∈ posts ∧
          (OccursIn q p.title ∨ OccursIn q p.content ∨ OccursIn q p.author)) ∧
        List.Sorted dateGE r := by
  refine ⟨rfl, rfl, ?_⟩
  intro q hq
  have hlq : toLowerJS ((some q).getD "") ≠ "" := by
    simpa [toLowerJS_eq_empty_iff] using hq
  unfold searchHandler
  rw [if_neg hlq]
  refine ⟨_, rfl, ?_, ?_⟩
  · intro p
    have hperm := List.perm_insertionSort dateGE (posts.filter (matchesQuery (toLowerJS q)))
    rw [show sortByDateDesc (posts.filter (matchesQuery (toLowerJS ((some q).getD "")))) =
      List.insertionSort dateGE (posts.filter (matchesQuery (toLowerJS q))) from rfl]
    rw [hperm.mem_iff, List.mem_filter]
    simp only [matchesQuery, Bool.or_eq_true, containsSub_iff, OccursIn]
    exact and_congr_right fun _ => or_assoc
  · exact List.sorted_insertionSort dateGE _

/-- C4 witness: searching `Alp` (mixed case) on the demo collection
returns exactly the matching older post, sorted. -/
theorem search_correct_witness :
    ∃ r, searchHandler (some "Alp") demoPosts = .results r ∧
      (∀ p, p ∈ r ↔ p ∈ demoPosts ∧
        (OccursIn "Alp" p.title ∨ OccursIn "Alp" p.content ∨ OccursIn "Alp" p.author)) ∧
      List.Sorted dateGE r :=
  (search_correct demoPosts).2.2 "Alp" (by decide)

/-! ### C5: previous/next navigation -/

theorem find?_id_unique {l : List Post} {p : Post}
    (hn : (l.map Post.id).Nodup) (hp : p ∈ l) :
    l.find? (idMatches (some p.id)) = some p := by
  induction l with
  | nil => simp at hp
  | cons a t ih =>
    have hn2 : (∀ x ∈ t, ¬ x.id = a.id) ∧ (t.map Post.id).Nodup := by simpa using hn
    rcases List.mem_cons.mp hp with rfl | hp2
    · have hpos : idMatches (some p.id) p = true := by simp [idMatches]
      rw [List.find?_cons_of_pos t hpos]
    · have hne : a.id ≠ p.id := fun he => hn2.1 p hp2 he.symm
      have hneg : ¬ (idMatches (some p.id) a = true) := by simp [idMatches, hne]
      rw [List.find?_cons_of_neg t hneg]
      exact ih hn2.2 hp2

theorem findIdx_id_unique {l : List Post} {p : Post}
    (hn : (l.map Post.id).Nodup) :
    ∀ {k : Nat}, l[k]? = some p → l.findIdx (idMatches (some p.id)) = k := by
  induction l with
  | nil => intro k hk; simp at hk
  | cons a t ih =>
    have hn2 : (∀ x ∈ t, ¬ x.id = a.id) ∧ (t.map Post.id).Nodup := by simpa using hn
    intro k hk
    cases k with
    | zero =>
      have hap : a = p := by simpa using hk
      subst hap
      have hpos : idMatches (some a.id) a = true := by simp [idMatches]
      simp [List.findIdx_cons, hpos]
    | succ k =>
      have hk2 : t[k]? = some p := by simpa using hk
      have hp2 : p ∈ t := List.getElem?_mem hk2
      have hne : a.id ≠ p.id := fun he => hn2.1 p hp2 he.symm
      have hma : idMatches (some p.id) a = false := by simp [idMatches, hne]
      rw [List.findIdx_cons, hma]
      simp only [cond_false]
      rw [ih hn2.2 hk2]

/-- C5: for a collection with unique identifiers and a post `p` sitting
at chronological position `k` of the date-descending order (0 = newest),
the `/post` handler for `p`'s identifier renders `p` with `prevPost`
equal to the post at position `k+1` (absent when `k` is the last
position) and `nextPost` equal to the post at position `k-1` (absent when
`k = 0`). -/
theorem locate_adjacent (posts : List Post) (k : Nat) (p : Post)
    (hn : (posts.map Post.id).Nodup)
    (hk : (sortByDateDesc posts)[k]? = some p) :
    locate posts (some p.id) =
      .view
        { post := p
          prevPost := (sortByDateDesc posts)[k + 1]?
          nextPost := if k = 0 then none else (sortByDateDesc posts)[k - 1]? } := by
  have hperm : (sortByDateDesc posts).Perm posts := List.perm_insertionSort dateGE posts
  have hns : ((sortByDateDesc posts).map Post.id).Nodup :=
    ((hperm.map Post.id).nodup_iff).mpr hn
  have hpmem : p ∈ posts := hperm.mem_iff.mp (List.getElem?_mem hk)
  have hfind : posts.find? (idMatches (some p.id)) = some p := find?_id_unique hn hpmem
  have hidx : (sortByDateDesc posts).findIdx (idMatches (some p.id)) = k :=
    findIdx_id_unique hns hk
  have hklen : k < (sortByDateDesc posts).length := by
    by_contra hc
    push_neg at hc
    rw [List.getElem?_eq_none hc] at hk
    exact Option.noConfusion hk
  have hprev :
      (if k < (sortByDateDesc posts).length - 1 then (sortByDateDesc posts)[k + 1]? else none) =
        (sortByDateDesc posts)[k + 1]? := by
    by_cases hlt : k < (sortByDateDesc posts).length - 1
    · rw [if_pos hlt]
    · rw [if_neg hlt, Eq.comm]
      apply List.getElem?_eq_none
      omega
  have hnext :
      (if 0 < k then (sortByDateDesc posts)[k - 1]? else none) =
        (if k = 0 then none else (sortByDateDesc posts)[k - 1]?) := by
    cases k with
    | zero => simp
    | succ k => simp
  unfold locate
  rw [hfind]
  rw [hidx, hprev, hnext]

/-- C5 witness: in the demo collection the newest post (position 0) has
the older post as `prevPost` and no `nextPost`. -/
theorem locate_adjacent_witness :
    locate demoPosts (some 2) =
      .view { post := postB, prevPost := some postA, nextPost := none } := by
  have h := locate_adjacent demoPosts 0 postB (by decide) (by decide)
  simpa using h

/-! ### C6: pagination partitions the sorted collection -/

theorem jsSlice_natCast (l : List α) (a b : Nat) :
    jsSlice l (a : Int) (b : Int) = (l.drop a).take (b - a) := by
  simp only [jsSlice]
  have h1 : ¬ ((a : Int) < 0) := by omega
  have h2 : ¬ ((b : Int) < 0) := by omega
  rw [if_neg h1, if_neg h2]
  have e1 : (min (a : Int) ((l.length : Nat) : Int)).toNat = min a l.length := by omega
  have e2 : (min (b : Int) ((l.length : Nat) : Int)).toNat = min b l.length := by omega
  rw [e1, e2]
  rcases Nat.le_total a l.length with ha | ha
  · rw [Nat.min_eq_left ha]
    rw [show l.take (min b l.length) = l.take b from List.take_eq_take.mpr (by omega)]
    rw [List.drop_take]
  · rw [Nat.min_eq_right ha]
    have hl : (l.take (min b l.length)).drop l.length = [] := by
      apply List.drop_eq_nil_of_le
      rw [List.length_take]
      omega
    have hr : (l.drop a).take (b - a) = [] := by
      rw [List.drop_eq_nil_of_le ha, List.take_nil]
    rw [hl, hr]

theorem flatten_chunks : ∀ (n : Nat) (l : List Post), l.length ≤ n →
    ((List.range (totalPagesOf l.length)).map
      (fun i => (l.drop (6 * i)).take 6)).flatten = l := by
  intro n
  induction n with
  | zero =>
    intro l hl
    have hnil : l = [] := List.eq_nil_of_length_eq_zero (by omega)
    subst hnil
    rfl
  | succ n ih =>
    intro l hl
    by_cases h0 : l.length = 0
    · have hnil : l = [] := List.eq_nil_of_length_eq_zero h0
      subst hnil
      rfl
    · have htp : totalPagesOf l.length = totalPagesOf (l.length - 6) + 1 := by
        unfold totalPagesOf
        omega
      rw [htp, List.range_succ_eq_map, List.map_cons, List.flatten_cons, List.map_map]
      have hcomp : ((fun i => (l.drop (6 * i)).take 6) ∘ Nat.succ) =
          (fun i => ((l.drop 6).drop (6 * i)).take 6) := by
        funext i
        show (l.drop (6 * (i + 1))).take 6 = ((l.drop 6).drop (6 * i)).take 6
        rw [List.drop_drop]
        have he : 6 * (i + 1) = 6 + 6 * i := by omega
        rw [he]
      rw [hcomp]
      have ihl := ih (l.drop 6) (by rw [List.length_drop]; omega)
      rw [List.length_drop] at ihl
      have hhead : (l.drop (6 * 0)).take 6 = l.take 6 := by
        rw [Nat.mul_zero, List.drop_zero]
      rw [hhead, ihl, List.take_append_drop]

/-- The item slices rendered for pages `1 .. totalPages` of the `/posts`
handler. -/
def listingPages (posts : List Post) : List (List Post) :=
  (List.range (totalPagesOf posts.length)).map
    (fun i : Nat => (paginate posts ((i : Int) + 1)).posts)

theorem listingPages_eq (posts : List Post) :
    listingPages posts =
      (List.range (totalPagesOf posts.length)).map
        (fun i => ((sortByDateDesc posts).drop (6 * i)).take 6) := by
  unfold listingPages
  have hfun : ∀ i : Nat, (paginate posts ((i : Int) + 1)).posts =
      ((sortByDateDesc posts).drop (6 * i)).take 6 := by
    intro i
    show jsSlice (sortByDateDesc posts) (((i : Int) + 1 - 1) * 6)
      ((((i : Int) + 1 - 1) * 6) + 6) = _
    have ho : ((i : Int) + 1 - 1) * 6 = ((6 * i : Nat) : Int) := by push_cast; ring
    rw [ho]
    have ho2 : ((6 * i : Nat) : Int) + 6 = ((6 * i + 6 : Nat) : Int) := by push_cast; ring
    rw [ho2, jsSlice_natCast]
    have he : 6 * i + 6 - 6 * i = 6 := by omega
    rw [he]
  rw [funext hfun]

/-- C6: for a collection with unique identifiers, the page slices for
pages 1 through totalPages (page size 6, totalPages = ⌈count / 6⌉)
concatenate, in page order, to exactly the full collection sorted by
creation timestamp descending, and they are pairwise disjoint. -/
theorem listing_partition (posts : List Post)
    (h : (posts.map Post.id).Nodup) :
    (listingPages posts).flatten = sortByDateDesc posts ∧
    List.Pairwise List.Disjoint (listingPages posts) := by
  have hperm := List.perm_insertionSort dateGE posts
  have hlen : (sortByDateDesc posts).length = posts.length := hperm.length_eq
  have hflat : (listingPages posts).flatten = sortByDateDesc posts := by
    rw [listingPages_eq, ← hlen]
    exact flatten_chunks (sortByDateDesc posts).length (sortByDateDesc posts) le_rfl
  refine ⟨hflat, ?_⟩
  have hnodup : (sortByDateDesc posts).Nodup :=
    (hperm.nodup_iff).mpr (List.Nodup.of_map Post.id h)
  have hfl : (listingPages posts).flatten.Nodup := by
    rw [hflat]
    exact hnodup
  exact (List.nodup_flatten.mp hfl).2

/-- C6 witness: on the demo collection (unique ids) the single page
reproduces the sorted collection, with pairwise-disjoint slices. -/
theorem listing_partition_witness :
    (listingPages demoPosts).flatten = sortByDateDesc demoPosts ∧
    List.Pairwise List.Disjoint (listingPages demoPosts) :=
  listing_partition demoPosts (by decide)
